import Mathlib

/-!
Verification of `08_BernTwoMetropolis.py`: a two-parameter Metropolis
random-walk sampler over the domain [0,1] x [0,1], together with its
post-processing (burn-in trimming, mean/std summaries, importance-weighted
evidence estimate, percentile-threshold HDI extraction).

Modelling conventions:
* Python/numpy floating point numbers are modelled as exact rationals (ℚ);
  the one place where IEEE special values influence control flow — the
  acceptance-ratio division `target(proposed) / target(current)` when the
  denominator is zero — is modelled explicitly by the `PyVal` type
  (NaN / +inf / -inf / ordinary value), mirroring numpy semantics:
  `x/0 = inf` for `x > 0`, `0/0 = NaN`, `np.minimum(1, NaN) = NaN`,
  `np.minimum(1, inf) = 1`, and every comparison with NaN is false.
* The seeded numpy random generator is modelled as input streams: a stream
  of proposal jump vectors (`np.random.multivariate_normal`, line 69) and a
  stream of uniform draws (`np.random.rand()`, line 76).  For the
  reproducibility claim the two streams are derived from one underlying
  stream in the fixed per-step consumption order of the source.
* `scipy.stats.beta.pdf(x, 3, 3)` (the prior, line 27) is the closed-form
  density `30 * x^2 * (1-x)^2` on [0,1] and `0` outside, since
  `B(3,3) = 1/30`.
* `np.std` (line 101) is the population standard deviation
  `sqrt(mean((x - mean(x))^2))`; the square root is modelled with
  `Real.sqrt`.
-/

namespace BernTwoMetropolis

/-- Likelihood of `08_BernTwoMetropolis.py` lines 14–19: data constants
`z1, N1, z2, N2 = 5, 7, 2, 7`, value
`theta[0]**z1 * (1-theta[0])**(N1-z1) * theta[1]**z2 * (1-theta[1])**(N2-z2)`. -/
def likelihood (theta : ℚ × ℚ) : ℚ :=
  theta.1 ^ 5 * (1 - theta.1) ^ (7 - 5) * theta.2 ^ 2 * (1 - theta.2) ^ (7 - 2)

/-- Closed form of `scipy.stats.beta.pdf(x, 3, 3)` used by `prior`
(line 27): `x^2 * (1-x)^2 / B(3,3)` with `B(3,3) = 1/30` on the support
[0,1], zero outside. -/
def beta_pdf_3_3 (x : ℚ) : ℚ :=
  if 0 ≤ x ∧ x ≤ 1 then 30 * x ^ 2 * (1 - x) ^ 2 else 0

/-- Prior of lines 24–28: `beta.pdf(theta[0], 3, 3) * beta.pdf(theta[1], 3, 3)`. -/
def prior (theta : ℚ × ℚ) : ℚ :=
  beta_pdf_3_3 theta.1 * beta_pdf_3_3 theta.2

/-- Domain test of line 35: `(theta >= 0.0).all() & (theta <= 1.0).all()`. -/
def inDomain (theta : ℚ × ℚ) : Prop :=
  0 ≤ theta.1 ∧ theta.1 ≤ 1 ∧ 0 ≤ theta.2 ∧ theta.2 ≤ 1

instance (theta : ℚ × ℚ) : Decidable (inDomain theta) :=
  inferInstanceAs (Decidable (0 ≤ theta.1 ∧ theta.1 ≤ 1 ∧ 0 ≤ theta.2 ∧ theta.2 ≤ 1))

/-- Unnormalized posterior of lines 34–41: `likelihood * prior` when every
coordinate lies in [0,1], and exactly `0.0` otherwise. -/
def target_rel_prob (theta : ℚ × ℚ) : ℚ :=
  if inDomain theta then likelihood theta * prior theta else 0

/-- Extended value produced by the float division and minimum on lines
72–73: an ordinary float (modelled exactly as a rational), +inf, -inf, or
NaN. -/
inductive PyVal where
  | nan : PyVal
  | inf : PyVal
  | ninf : PyVal
  | val : ℚ → PyVal
deriving DecidableEq

/-- Float division `num / den` of line 72–73 under numpy semantics: an
ordinary quotient when `den ≠ 0`; for `den = 0` the result is NaN when
`num = 0`, +inf when `num > 0`, -inf when `num < 0`.  (When both operands
are the plain-Python literal `0.0` from the out-of-domain branch of
`target_rel_prob`, CPython would raise `ZeroDivisionError` instead of
producing NaN; no theorem below asserts behaviour in that corner.) -/
def pyDiv (num den : ℚ) : PyVal :=
  if den = 0 then
    (if num = 0 then .nan else if 0 < num then .inf else .ninf)
  else .val (num / den)

/-- `np.minimum(1, x)` of line 72: propagates NaN, clips +inf to 1. -/
def pyMin1 : PyVal → PyVal
  | .nan => .nan
  | .inf => .val 1
  | .ninf => .ninf
  | .val q => .val (min 1 q)

/-- The comparison `u < prob_accept` of line 76: any comparison with NaN is
false; `u < +inf` is true, `u < -inf` is false. -/
def pyLtVal (u : ℚ) : PyVal → Bool
  | .nan => false
  | .inf => true
  | .ninf => false
  | .val q => decide (u < q)

/-- Acceptance probability of lines 72–73:
`np.minimum(1, target_rel_prob(proposed) / target_rel_prob(current))`. -/
def prob_accept (current proposed : ℚ × ℚ) : PyVal :=
  pyMin1 (pyDiv (target_rel_prob proposed) (target_rel_prob current))

/-- One iteration of the random-walk loop, lines 64–87: form
`proposed = current + jump`, compute the acceptance probability, accept
(`trajectory[step+1] = proposed`) when `u < prob_accept`, otherwise stay
(`trajectory[step+1] = current`). -/
def metropolisStep (current jump : ℚ × ℚ) (u : ℚ) : ℚ × ℚ :=
  let proposed := (current.1 + jump.1, current.2 + jump.2)
  if pyLtVal u (prob_accept current proposed) then proposed else current

/-- Whether the step at state `current` with proposal perturbation `jump`
and uniform draw `u` takes the accept branch of line 76. -/
def accepts (current jump : ℚ × ℚ) (u : ℚ) : Bool :=
  pyLtVal u (prob_accept current (current.1 + jump.1, current.2 + jump.2))

/-- The trajectory array as a function of the step index: index 0 holds the
start state (line 51) and index `n+1` holds the result of loop iteration
`step = n` (lines 64–87), driven by the stream `jumps` of proposal
perturbations and the stream `us` of uniform draws. -/
def traj (start : ℚ × ℚ) (jumps : ℕ → ℚ × ℚ) (us : ℕ → ℚ) : ℕ → ℚ × ℚ
  | 0 => start
  | n + 1 => metropolisStep (traj start jumps us n) (jumps n) (us n)

/-- Start state of line 51: `trajectory[0, ] = [0.50, 0.50]`. -/
def startPoint : ℚ × ℚ := (1/2, 1/2)

/-- The trajectory of the script, seeded at `[0.5, 0.5]`. -/
def trajectory (jumps : ℕ → ℚ × ℚ) (us : ℕ → ℚ) : ℕ → ℚ × ℚ :=
  traj startPoint jumps us

/-- The seeded generator of line 58 modelled as one stream: loop iteration
`n` consumes the two components of the multivariate-normal proposal first
(stream positions `3n` and `3n+1`, line 69) and the uniform accept/reject
draw second (position `3n+2`, line 76), in that fixed order. -/
def chainTraj (gen : ℕ → ℚ) : ℕ → ℚ × ℚ :=
  traj startPoint (fun n => (gen (3 * n), gen (3 * n + 1))) (fun n => gen (3 * n + 2))

/-! ### Helper lemmas -/

/-- The start state `[0.5, 0.5]` of line 51 has positive density. -/
theorem target_startPoint_pos : 0 < target_rel_prob startPoint := by
  norm_num [target_rel_prob, inDomain, likelihood, prior, beta_pdf_3_3, startPoint]

/-- Outside the domain the target returns exactly `0.0` (else-branch of
lines 37–40). -/
theorem target_eq_zero_of_not_inDomain {theta : ℚ × ℚ} (h : ¬ inDomain theta) :
    target_rel_prob theta = 0 := if_neg h

/-- A state with positive density lies in the domain. -/
theorem inDomain_of_target_pos {theta : ℚ × ℚ} (h : 0 < target_rel_prob theta) :
    inDomain theta := by
  by_contra hn
  rw [target_eq_zero_of_not_inDomain hn] at h
  exact lt_irrefl 0 h

/-- A state with positive density has every coordinate strictly inside
(0,1): the likelihood factors `theta_i^k` and `(1-theta_i)^k` and the
Beta(3,3) prior all vanish on the boundary. -/
theorem interior_of_target_pos {theta : ℚ × ℚ} (h : 0 < target_rel_prob theta) :
    0 < theta.1 ∧ theta.1 < 1 ∧ 0 < theta.2 ∧ theta.2 < 1 := by
  have hd : inDomain theta := inDomain_of_target_pos h
  have ht : 0 < likelihood theta * prior theta := by
    rwa [target_rel_prob, if_pos hd] at h
  have hl : likelihood theta ≠ 0 := by
    intro h0
    rw [h0, zero_mul] at ht
    exact lt_irrefl 0 ht
  obtain ⟨h1, h2, h3, h4⟩ := hd
  refine ⟨lt_of_le_of_ne h1 ?_, lt_of_le_of_ne h2 ?_, lt_of_le_of_ne h3 ?_, lt_of_le_of_ne h4 ?_⟩
  · intro h0; exact hl (by simp [likelihood, ← h0])
  · intro h0; exact hl (by simp [likelihood, h0])
  · intro h0; exact hl (by simp [likelihood, ← h0])
  · intro h0; exact hl (by simp [likelihood, h0])

/-- One Metropolis step preserves positive density provided the uniform
draw is non-negative: a proposal with ratio `0` can never satisfy
`u < 0`. -/
theorem target_pos_step (c jump : ℚ × ℚ) (u : ℚ) (hu : 0 ≤ u)
    (hc : 0 < target_rel_prob c) :
    0 < target_rel_prob (metropolisStep c jump u) := by
  rw [metropolisStep]
  simp only [prob_accept, pyDiv, if_neg hc.ne', pyMin1, pyLtVal, decide_eq_true_eq]
  split
  case isTrue h =>
    have hdiv : 0 < target_rel_prob (c.1 + jump.1, c.2 + jump.2) / target_rel_prob c :=
      lt_of_le_of_lt hu (lt_of_lt_of_le h (min_le_right _ _))
    rcases div_pos_iff.1 hdiv with ⟨hp, _⟩ | ⟨_, hneg⟩
    · exact hp
    · exact absurd hc (not_lt_of_gt hneg)
  case isFalse h => exact hc

/-- Every trajectory state has positive density when all uniform draws are
non-negative (they are drawn from [0,1), line 76). -/
theorem trajectory_target_pos (jumps : ℕ → ℚ × ℚ) (us : ℕ → ℚ)
    (h : ∀ n, 0 ≤ us n) : ∀ i, 0 < target_rel_prob (trajectory jumps us i) := by
  intro i
  induction i with
  | zero => exact target_startPoint_pos
  | succ n ih => exact target_pos_step _ _ _ (h n) ih

/-! ### Claim theorems -/

/-- C1: for every step, the sampler forms `proposed = current + jump`,
computes `ratio = min(1, target(proposed)/target(current))`, and writes
`trajectory[step+1] = proposed` exactly when `u < ratio`, writing the
repeated `current` state otherwise (the rejected step is recorded, not
skipped).  Stated whenever `target(current) ≠ 0`, so that the division in
the ratio is an ordinary float division (in the script's actual run the
current density is always positive, see `trajectory_target_pos`). -/
theorem metropolis_step_characterization (start : ℚ × ℚ) (jumps : ℕ → ℚ × ℚ)
    (us : ℕ → ℚ) (n : ℕ)
    (h : target_rel_prob (traj start jumps us n) ≠ 0) :
    traj start jumps us (n + 1) =
      if us n < min 1 (target_rel_prob
            ((traj start jumps us n).1 + (jumps n).1, (traj start jumps us n).2 + (jumps n).2)
          / target_rel_prob (traj start jumps us n))
      then ((traj start jumps us n).1 + (jumps n).1, (traj start jumps us n).2 + (jumps n).2)
      else traj start jumps us n := by
  show metropolisStep (traj start jumps us n) (jumps n) (us n) = _
  simp only [metropolisStep, prob_accept, pyDiv, if_neg h, pyMin1, pyLtVal, decide_eq_true_eq]

/-- Witness for C1 at the start state with zero jump and `u = 0`. -/
theorem metropolis_step_characterization_witness :
    traj ((1:ℚ)/2, (1:ℚ)/2) (fun _ => (0, 0)) (fun _ => 0) 1 =
      if (0:ℚ) < min 1 (target_rel_prob ((1:ℚ)/2 + 0, (1:ℚ)/2 + 0)
          / target_rel_prob ((1:ℚ)/2, (1:ℚ)/2))
      then ((1:ℚ)/2 + 0, (1:ℚ)/2 + 0)
      else ((1:ℚ)/2, (1:ℚ)/2) :=
  metropolis_step_characterization ((1:ℚ)/2, (1:ℚ)/2) (fun _ => (0, 0)) (fun _ => 0) 0
    target_startPoint_pos.ne'

/-- C2: the target density returns exactly `0.0` whenever any coordinate
of its argument lies outside [0,1] (lines 34–41), and consequently every
trajectory state lies in the domain [0,1] x [0,1]: out-of-domain proposals
always have acceptance ratio 0, and the start [0.5, 0.5] has positive
density. -/
theorem domain_zero_and_containment (jumps : ℕ → ℚ × ℚ) (us : ℕ → ℚ)
    (h : ∀ n, 0 ≤ us n) (i : ℕ) (theta : ℚ × ℚ) (hout : ¬ inDomain theta) :
    target_rel_prob theta = 0 ∧ inDomain (trajectory jumps us i) :=
  ⟨target_eq_zero_of_not_inDomain hout,
   inDomain_of_target_pos (trajectory_target_pos jumps us h i)⟩

/-- Witness for C2 at the out-of-domain point (2, 0) and trajectory index 3. -/
theorem domain_zero_and_containment_witness :
    target_rel_prob ((2:ℚ), (0:ℚ)) = 0 ∧
    inDomain (trajectory (fun _ => (0, 0)) (fun _ => 0) 3) :=
  domain_zero_and_containment (fun _ => (0, 0)) (fun _ => 0)
    (fun _ => le_refl 0) 3 (2, 0) (by norm_num [inDomain])

/-- C4 counterexample: at `current = (2, 1/2)` (out of domain, density
exactly 0) with `jump = (-3/2, 0)` and `u = 0`, the proposal `(1/2, 1/2)`
has positive density, so the numpy ratio is `min(1, inf) = 1` and the step
ACCEPTS the proposal — it does not treat the ratio as 0 and reject as the
claim states. -/
theorem zero_current_density_counterexample :
    target_rel_prob ((2:ℚ), (1/2:ℚ)) = 0 ∧
    metropolisStep (2, 1/2) (-3/2, 0) 0 = ((1/2:ℚ), (1/2:ℚ)) ∧
    ((1/2:ℚ), (1/2:ℚ)) ≠ ((2:ℚ), (1/2:ℚ)) := by
  refine ⟨by norm_num [target_rel_prob, inDomain], ?_, by norm_num [Prod.ext_iff]⟩
  have h1 : target_rel_prob ((2:ℚ), (1/2:ℚ)) = 0 := by
    norm_num [target_rel_prob, inDomain]
  have h2 : 0 < target_rel_prob ((2:ℚ) + -3/2, (1/2:ℚ) + 0) := by
    norm_num [target_rel_prob, inDomain, likelihood, prior, beta_pdf_3_3]
  rw [metropolisStep]
  simp only [h1, h2.ne', prob_accept, pyDiv, if_pos rfl, if_neg h2.ne', h2, pyMin1, pyLtVal]
  norm_num

/-- C4 amended: when `target(current) = 0` and `target(proposed) > 0`, the
ratio is `min(1, +inf) = 1` and any draw `u < 1` ACCEPTS the proposal
(the code has no guard for a zero-density current state); in every case
the value written into the trajectory is either the proposed or the current
parameter vector, so no NaN is ever written into the trajectory. -/
theorem zero_current_density_amended (current jump : ℚ × ℚ) (u : ℚ)
    (hc : target_rel_prob current = 0)
    (hp : 0 < target_rel_prob (current.1 + jump.1, current.2 + jump.2))
    (hu : u < 1) :
    metropolisStep current jump u = (current.1 + jump.1, current.2 + jump.2) ∧
    ∀ (c j : ℚ × ℚ) (v : ℚ),
      metropolisStep c j v = (c.1 + j.1, c.2 + j.2) ∨ metropolisStep c j v = c := by
  constructor
  · have hpa : prob_accept current (current.1 + jump.1, current.2 + jump.2) = PyVal.val 1 := by
      rw [prob_accept, pyDiv, if_pos hc, if_neg hp.ne', if_pos hp]
      rfl
    simp only [metropolisStep, hpa, pyLtVal, decide_eq_true_eq, if_pos hu]
  · intro c j v
    simp only [metropolisStep]
    split
    · exact Or.inl rfl
    · exact Or.inr rfl

/-- Witness for the amended C4 at the counterexample input. -/
theorem zero_current_density_amended_witness :
    metropolisStep (2, 1/2) (-3/2, 0) 0 = (((2:ℚ), (1/2:ℚ)).1 + (-3/2), ((2:ℚ), (1/2:ℚ)).2 + 0) :=
  (zero_current_density_amended (2, 1/2) (-3/2, 0) 0
    (by norm_num [target_rel_prob, inDomain])
    (by norm_num [target_rel_prob, inDomain, likelihood, prior, beta_pdf_3_3])
    (by norm_num)).1

/-- C9: given the same seed (hence the same underlying draw stream), two
runs produce identical trajectories at every index; within each step the
draws are consumed in the fixed order: the two proposal components at
stream positions `3n` and `3n+1` first, then the uniform acceptance draw
at position `3n+2`. -/
theorem chain_reproducible (gen gen2 : ℕ → ℚ) (h : ∀ n, gen n = gen2 n) (i : ℕ) :
    chainTraj gen i = chainTraj gen2 i ∧
    chainTraj gen (i + 1) =
      metropolisStep (chainTraj gen i) (gen (3 * i), gen (3 * i + 1)) (gen (3 * i + 2)) := by
  have hg : gen = gen2 := funext h
  subst hg
  exact ⟨rfl, rfl⟩

/-- Witness for C9 with two pointwise-equal generator streams at index 4. -/
theorem chain_reproducible_witness :
    chainTraj (fun _ => (0:ℚ)) 4 = chainTraj (fun _ => (0:ℚ) + 0) 4 ∧
    chainTraj (fun _ => (0:ℚ)) 5 =
      metropolisStep (chainTraj (fun _ => (0:ℚ)) 4) (0, 0) 0 :=
  chain_reproducible (fun _ => (0:ℚ)) (fun _ => (0:ℚ) + 0) (fun _ => (add_zero 0).symm) 4

/-- C10: every trajectory state has strictly positive unnormalized density,
and hence no trajectory coordinate is ever exactly 0 or 1 (the likelihood
and the Beta(3,3) prior vanish on the domain boundary); this holds because
a zero-density proposal has acceptance ratio 0, the uniform draw satisfies
`u ≥ 0`, and the seed state [0.5, 0.5] has positive density. -/
theorem trajectory_density_pos (jumps : ℕ → ℚ × ℚ) (us : ℕ → ℚ)
    (h : ∀ n, 0 ≤ us n) (i : ℕ) :
    0 < target_rel_prob (trajectory jumps us i) ∧
    0 < (trajectory jumps us i).1 ∧ (trajectory jumps us i).1 < 1 ∧
    0 < (trajectory jumps us i).2 ∧ (trajectory jumps us i).2 < 1 :=
  ⟨trajectory_target_pos jumps us h i,
   interior_of_target_pos (trajectory_target_pos jumps us h i)⟩

/-- Accepted counter after loop iterations `0 .. n-1` (lines 80–81): the
accept branch increments `n_accepted` only when `step > burn_in`. -/
def nAccUpTo (jumps : ℕ → ℚ × ℚ) (us : ℕ → ℚ) (b : ℕ) : ℕ → ℕ
  | 0 => 0
  | n + 1 => nAccUpTo jumps us b n +
      if b < n ∧ accepts (trajectory jumps us n) (jumps n) (us n) = true then 1 else 0

/-- Rejected counter after loop iterations `0 .. n-1` (lines 86–87). -/
def nRejUpTo (jumps : ℕ → ℚ × ℚ) (us : ℕ → ℚ) (b : ℕ) : ℕ → ℕ
  | 0 => 0
  | n + 1 => nRejUpTo jumps us b n +
      if b < n ∧ accepts (trajectory jumps us n) (jumps n) (us n) = false then 1 else 0

/-- Final value of `n_accepted` for a run of `traj_length = len`: the loop
of line 64 runs steps `0 .. len-2`, i.e. `len - 1` iterations. -/
def n_accepted (jumps : ℕ → ℚ × ℚ) (us : ℕ → ℚ) (len b : ℕ) : ℕ :=
  nAccUpTo jumps us b (len - 1)

/-- Final value of `n_rejected` for a run of `traj_length = len`. -/
def n_rejected (jumps : ℕ → ℚ × ℚ) (us : ℕ → ℚ) (len b : ℕ) : ℕ :=
  nRejUpTo jumps us b (len - 1)

/-- Each loop iteration increments exactly one of the two counters when
`step > burn_in` and neither otherwise, so after `n` iterations the
counters sum to the number of steps in `[0, n)` strictly above `b`. -/
theorem counters_split (jumps : ℕ → ℚ × ℚ) (us : ℕ → ℚ) (b : ℕ) :
    ∀ n, nAccUpTo jumps us b n + nRejUpTo jumps us b n = n - (b + 1) := by
  intro n
  induction n with
  | zero => simp [nAccUpTo, nRejUpTo]
  | succ n ih =>
    rw [nAccUpTo, nRejUpTo]
    by_cases hb : b < n <;> cases hacc : accepts (trajectory jumps us n) (jumps n) (us n) <;>
      simp only [hb, hacc, true_and, false_and, and_true, and_false, if_true, if_false,
        Bool.false_eq_true, Bool.true_eq_false, if_neg, not_false_eq_true] <;>
      simp <;> omega

/-- C3 counterexample: with `trajectory_length = 3` and burn-in boundary 0
the loop runs steps 0 and 1 and counts only step 1 (the sole step with
index strictly greater than 0), so the counters sum to 1, while the
claimed formula `max(0, trajectory_length - 1 - burn_in_boundary)` gives 2. -/
theorem counters_sum_counterexample :
    ¬ (((n_accepted (fun _ => (0, 0)) (fun _ => 0) 3 0 : ℤ) +
        n_rejected (fun _ => (0, 0)) (fun _ => 0) 3 0) = max 0 ((3 : ℤ) - 1 - 0)) := by
  have h := counters_split (fun _ => ((0:ℚ), (0:ℚ))) (fun _ => (0:ℚ)) 0 (3 - 1)
  rw [n_accepted, n_rejected]
  omega

/-- C3 amended: the loop of line 64 tries `trajectory_length - 1` jumps
(steps `0 .. trajectory_length - 2`) and increments a counter exactly for
the steps with index strictly greater than the burn-in boundary, so the
final counters satisfy
`n_accepted + n_rejected = max(0, trajectory_length - 2 - burn_in_boundary)`
(the claimed bound `trajectory_length - 1 - burn_in_boundary` is off by
one). -/
theorem counters_sum (jumps : ℕ → ℚ × ℚ) (us : ℕ → ℚ) (len b : ℕ) :
    ((n_accepted jumps us len b : ℤ) + n_rejected jumps us len b) =
      max 0 ((len : ℤ) - 2 - b) := by
  have h := counters_split jumps us b (len - 1)
  rw [n_accepted, n_rejected]
  omega

/-- Witness for C10 at index 2 of a concrete run. -/
theorem trajectory_density_pos_witness :
    0 < target_rel_prob (trajectory (fun _ => (0, 0)) (fun _ => 0) 2) ∧
    0 < (trajectory (fun _ => (0, 0)) (fun _ => 0) 2).1 ∧
    (trajectory (fun _ => (0, 0)) (fun _ => 0) 2).1 < 1 ∧
    0 < (trajectory (fun _ => (0, 0)) (fun _ => 0) 2).2 ∧
    (trajectory (fun _ => (0, 0)) (fun _ => 0) 2).2 < 1 :=
  trajectory_density_pos (fun _ => (0, 0)) (fun _ => 0) (fun _ => le_refl 0) 2

/-! ### Percentile and HDI extraction (lines 138–149) -/

/-- Access into the sorted value array, clamped to the last index; for
percentile ranks `q ∈ [0, 100]` the interpolation below only reads indices
that numpy would read (the clamp at `i+1` is exercised only with
interpolation weight 0). -/
def vAt (sorted : List ℚ) (j : ℕ) : ℚ :=
  sorted.getD (min j (sorted.length - 1)) 0

/-- Linear interpolation of `np.percentile` at fractional position `pos`
into a sorted array: with `i = floor(pos)` and `frac = pos - i`, the value
is `v[i] + frac * (v[i+1] - v[i])`. -/
def interpAt (sorted : List ℚ) (pos : ℚ) : ℚ :=
  vAt sorted (Int.floor pos).toNat +
    (pos - ((Int.floor pos).toNat : ℚ)) *
      (vAt sorted ((Int.floor pos).toNat + 1) - vAt sorted (Int.floor pos).toNat)

/-- `np.percentile(xs, q)` (line 147) with the default linear-interpolation
method: sort the values and interpolate at position `q/100 * (n-1)`. -/
def percentile (xs : List ℚ) (q : ℚ) : ℚ :=
  interpAt (List.insertionSort (· ≤ ·) xs) (q / 100 * ((xs.length : ℚ) - 1))

/-- Lines 141–149: evaluate `target_rel_prob` at every trimmed point
(`post_prob`), set `waterline = np.percentile(post_prob, credmass)`, and
keep the points whose density strictly exceeds the waterline
(`accepted_traj[post_prob > waterline]`). -/
def HDI_points (pts : List (ℚ × ℚ)) (credmass : ℚ) : List (ℚ × ℚ) :=
  pts.filter (fun p => decide (percentile (pts.map target_rel_prob) credmass < target_rel_prob p))

/-- Clamped access into a sorted list is monotone in the index. -/
theorem vAt_mono {l : List ℚ} (hs : List.Sorted (· ≤ ·) l) (hne : l ≠ [])
    {j k : ℕ} (hjk : j ≤ k) : vAt l j ≤ vAt l k := by
  have hlen : 0 < l.length := List.length_pos.2 hne
  have hj : min j (l.length - 1) < l.length := by omega
  have hk : min k (l.length - 1) < l.length := by omega
  rw [vAt, vAt, List.getD_eq_getElem _ _ hj, List.getD_eq_getElem _ _ hk]
  have hmm : min j (l.length - 1) ≤ min k (l.length - 1) := by omega
  exact List.Sorted.rel_get_of_le hs (a := ⟨_, hj⟩) (b := ⟨_, hk⟩) hmm

/-- Piecewise-linear interpolation into a sorted list is monotone in the
position. -/
theorem interpAt_mono {l : List ℚ} (hs : List.Sorted (· ≤ ·) l) (hne : l ≠ [])
    {p p' : ℚ} (hp : 0 ≤ p) (hpp : p ≤ p') : interpAt l p ≤ interpAt l p' := by
  have hfp : (0:ℤ) ≤ Int.floor p := Int.floor_nonneg.2 hp
  have hfp' : (0:ℤ) ≤ Int.floor p' := Int.floor_nonneg.2 (le_trans hp hpp)
  set i : ℕ := (Int.floor p).toNat with hidef
  set i' : ℕ := (Int.floor p').toNat with hidef'
  have hci : (i : ℚ) = ((Int.floor p : ℤ) : ℚ) := by
    rw [hidef]; exact_mod_cast congrArg Int.cast (Int.toNat_of_nonneg hfp)
  have hci' : (i' : ℚ) = ((Int.floor p' : ℤ) : ℚ) := by
    rw [hidef']; exact_mod_cast congrArg Int.cast (Int.toNat_of_nonneg hfp')
  have hf0 : 0 ≤ p - (i : ℚ) := by rw [hci]; exact sub_nonneg.2 (Int.floor_le p)
  have hf1 : p - (i : ℚ) ≤ 1 := by
    rw [hci]; have := Int.lt_floor_add_one p; linarith
  have hf0' : 0 ≤ p' - (i' : ℚ) := by rw [hci']; exact sub_nonneg.2 (Int.floor_le p')
  have hii : i ≤ i' := by
    have : Int.floor p ≤ Int.floor p' := Int.floor_le_floor hpp
    omega
  have hd : vAt l i ≤ vAt l (i + 1) := vAt_mono hs hne (Nat.le_succ i)
  have hd' : vAt l i' ≤ vAt l (i' + 1) := vAt_mono hs hne (Nat.le_succ i')
  rcases Nat.eq_or_lt_of_le hii with heq | hlt
  · rw [interpAt, interpAt, ← hidef, ← hidef', ← heq]
    have : (p - (i:ℚ)) * (vAt l (i+1) - vAt l i) ≤ (p' - (i:ℚ)) * (vAt l (i+1) - vAt l i) := by
      apply mul_le_mul_of_nonneg_right _ (sub_nonneg.2 hd)
      linarith
    linarith
  · have h1 : interpAt l p ≤ vAt l (i + 1) := by
      rw [interpAt, ← hidef]
      nlinarith [sub_nonneg.2 hd]
    have h2 : vAt l (i + 1) ≤ vAt l i' := vAt_mono hs hne hlt
    have h3 : vAt l i' ≤ interpAt l p' := by
      rw [interpAt, ← hidef']
      nlinarith [sub_nonneg.2 hd']
    linarith

/-- The numpy percentile is monotone in the rank `q` on a fixed non-empty
sample. -/
theorem percentile_mono (xs : List ℚ) (hne : xs ≠ []) {q1 q2 : ℚ}
    (h0 : 0 ≤ q1) (h12 : q1 ≤ q2) : percentile xs q1 ≤ percentile xs q2 := by
  have hs : List.Sorted (· ≤ ·) (List.insertionSort (· ≤ ·) xs) :=
    List.sorted_insertionSort _ xs
  have hlen : (List.insertionSort (· ≤ ·) xs).length = xs.length :=
    List.length_insertionSort _ xs
  have hsne : List.insertionSort (· ≤ ·) xs ≠ [] := by
    intro h
    rw [h] at hlen
    exact hne (List.eq_nil_of_length_eq_zero hlen.symm)
  have hn1 : (0:ℚ) ≤ (xs.length : ℚ) - 1 := by
    have h1 : 1 ≤ xs.length := List.length_pos.2 hne
    have h2 : (1:ℚ) ≤ (xs.length : ℚ) := by exact_mod_cast h1
    linarith
  apply interpAt_mono hs hsne
  · exact mul_nonneg (div_nonneg h0 (by norm_num)) hn1
  · exact mul_le_mul_of_nonneg_right (div_le_div_of_nonneg_right h12 (by norm_num)) hn1

/-- C5: a point belongs to the HDI set exactly when it is a trimmed
trajectory point whose target density STRICTLY exceeds the waterline,
where the waterline is the `credmass`-th percentile of the densities of
all trimmed points; points whose density equals the waterline are
excluded. -/
theorem HDI_points_characterization (pts : List (ℚ × ℚ)) (credmass : ℚ) (p : ℚ × ℚ) :
    p ∈ HDI_points pts credmass ↔
      p ∈ pts ∧ percentile (pts.map target_rel_prob) credmass < target_rel_prob p := by
  simp [HDI_points, List.mem_filter]

/-- C7: on a fixed non-empty trimmed trajectory, raising the credibility
mass never lowers the waterline and never enlarges the returned HDI point
set. -/
theorem hdi_monotone (pts : List (ℚ × ℚ)) (c1 c2 : ℚ) (hne : pts ≠ [])
    (h0 : 0 ≤ c1) (h12 : c1 ≤ c2) (_h100 : c2 ≤ 100) :
    percentile (pts.map target_rel_prob) c1 ≤ percentile (pts.map target_rel_prob) c2 ∧
    (HDI_points pts c2).length ≤ (HDI_points pts c1).length := by
  have hmne : pts.map target_rel_prob ≠ [] := by
    simpa using hne
  have hw : percentile (pts.map target_rel_prob) c1 ≤ percentile (pts.map target_rel_prob) c2 :=
    percentile_mono _ hmne h0 h12
  refine ⟨hw, ?_⟩
  rw [HDI_points, HDI_points, ← List.countP_eq_length_filter, ← List.countP_eq_length_filter]
  apply List.countP_mono_left
  intro a _ ha
  simp only [decide_eq_true_eq] at ha ⊢
  exact lt_of_le_of_lt hw ha

/-- Witness for C7 on a one-point sample with credmasses 1/2 and 95/100. -/
theorem hdi_monotone_witness :
    percentile ([((1:ℚ)/2, (1:ℚ)/2)].map target_rel_prob) (1/2) ≤
      percentile ([((1:ℚ)/2, (1:ℚ)/2)].map target_rel_prob) (95/100) ∧
    (HDI_points [((1:ℚ)/2, (1:ℚ)/2)] (95/100)).length ≤
      (HDI_points [((1:ℚ)/2, (1:ℚ)/2)] (1/2)).length :=
  hdi_monotone [((1:ℚ)/2, (1:ℚ)/2)] (1/2) (95/100)
    (by simp) (by norm_num) (by norm_num) (by norm_num)

/-! ### Burn-in, trimming and summary statistics (lines 53, 96–101) -/

/-- Burn-in boundary of line 53: `np.ceil(frac * traj_length).astype(int)`
(with `frac = 0.1` and `traj_length = 5000` in the script). -/
def burn_in (frac : ℚ) (len : ℕ) : ℕ := (Int.ceil (frac * len)).toNat

/-- The full trajectory array of line 49 after the loop: entry `i` holds
`trajectory i` for every `i < traj_length`. -/
def trajList (jumps : ℕ → ℚ × ℚ) (us : ℕ → ℚ) (len : ℕ) : List (ℚ × ℚ) :=
  (List.range len).map (trajectory jumps us)

/-- Line 96: `accepted_traj = trajectory[burn_in:]`. -/
def accepted_traj (jumps : ℕ → ℚ × ℚ) (us : ℕ → ℚ) (len b : ℕ) : List (ℚ × ℚ) :=
  (trajList jumps us len).drop b

/-- `np.mean` of one coordinate's values (line 99). -/
def meanList (xs : List ℚ) : ℚ := xs.sum / xs.length

/-- Mean of squared deviations from the mean, the quantity under the square
root in `np.std` (denominator `n`, i.e. `ddof = 0`). -/
def popVar (xs : List ℚ) : ℚ := ((xs.map (fun x => (x - meanList xs) ^ 2)).sum) / xs.length

/-- `np.std` of line 101: the square root of the population variance. -/
noncomputable def stdList (xs : List ℚ) : ℝ := Real.sqrt ((popVar xs : ℚ) : ℝ)

/-- C8: the burn-in boundary is `ceil(fraction * trajectory_length)` — at
the script's configuration `ceil(0.1 * 5000) = 500`, which satisfies
`0 ≤ 500 < 5000`; trimming drops exactly the indices `[0, burn_in)`, so the
trimmed list has length `len - b` and its `i`-th entry is trajectory entry
`b + i`; the per-dimension summary statistics are the arithmetic mean
`sum/n` and the POPULATION standard deviation (its square times `n` equals
the sum of squared deviations — denominator `n`, not `n - 1`). -/
theorem burnin_trim_mean_std (jumps : ℕ → ℚ × ℚ) (us : ℕ → ℚ) (len b i : ℕ)
    (hi : i < len - b) (xs : List ℚ) (hxs : xs ≠ []) :
    burn_in (1/10) 5000 = 500 ∧ burn_in (1/10) 5000 < 5000 ∧
    (accepted_traj jumps us len b).length = len - b ∧
    (accepted_traj jumps us len b).getD i (0, 0) = trajectory jumps us (b + i) ∧
    meanList xs = xs.sum / (xs.length : ℚ) ∧
    0 ≤ stdList xs ∧
    stdList xs ^ 2 * (xs.length : ℝ) = (((xs.map (fun x => (x - meanList xs) ^ 2)).sum : ℚ) : ℝ) := by
  have hb : burn_in (1/10) 5000 = 500 := by norm_num [burn_in]; decide
  have hlen : (accepted_traj jumps us len b).length = len - b := by
    simp [accepted_traj, trajList]
  have hget : (accepted_traj jumps us len b).getD i (0, 0) = trajectory jumps us (b + i) := by
    have hbd : i < (accepted_traj jumps us len b).length := by rw [hlen]; exact hi
    rw [List.getD_eq_getElem _ _ hbd]
    simp only [accepted_traj, trajList]
    simp
  have hvar : (0:ℝ) ≤ ((popVar xs : ℚ) : ℝ) := by
    have hs : (0:ℚ) ≤ (xs.map (fun x => (x - meanList xs) ^ 2)).sum := by
      apply List.sum_nonneg
      intro y hy
      obtain ⟨x, _, hx⟩ := List.mem_map.1 hy
      rw [← hx]; positivity
    have h0 : (0:ℚ) ≤ popVar xs := div_nonneg hs (by positivity)
    exact_mod_cast h0
  have hsq : stdList xs ^ 2 = ((popVar xs : ℚ) : ℝ) := Real.sq_sqrt hvar
  have hn : (xs.length : ℝ) ≠ 0 := by
    have h0 : 0 < xs.length := List.length_pos.2 hxs
    positivity
  refine ⟨hb, by rw [hb]; norm_num, hlen, hget, rfl, Real.sqrt_nonneg _, ?_⟩
  rw [hsq, popVar]
  push_cast
  field_simp

/-- Witness for C8 at a length-2 run trimmed at 1, with coordinate sample
`[1/2]`. -/
theorem burnin_trim_mean_std_witness :
    burn_in (1/10) 5000 = 500 ∧ burn_in (1/10) 5000 < 5000 ∧
    (accepted_traj (fun _ => (0, 0)) (fun _ => 0) 2 1).length = 2 - 1 ∧
    (accepted_traj (fun _ => (0, 0)) (fun _ => 0) 2 1).getD 0 (0, 0) =
      trajectory (fun _ => (0, 0)) (fun _ => 0) (1 + 0) ∧
    meanList [(1:ℚ)/2] = [(1:ℚ)/2].sum / (([(1:ℚ)/2].length : ℚ)) ∧
    0 ≤ stdList [(1:ℚ)/2] ∧
    stdList [(1:ℚ)/2] ^ 2 * (([(1:ℚ)/2].length : ℝ)) =
      ((([(1:ℚ)/2].map (fun x => (x - meanList [(1:ℚ)/2]) ^ 2)).sum : ℚ) : ℝ) :=
  burnin_trim_mean_std (fun _ => (0, 0)) (fun _ => 0) 2 1 0 (by decide) [(1:ℚ)/2] (by simp)

/-! ### Evidence estimate (lines 115–132) -/

/-- Beta moment-matched parameter `a` of line 119 for one dimension's
coordinate sample `xs`: `a = m * ((m*(1-m)/std**2) - 1)` with `m` the
sample mean and `std` the `np.std` of `xs` (note the code squares the
computed standard deviation). -/
noncomputable def aCoef (xs : List ℚ) : ℝ :=
  (meanList xs : ℝ) * (((meanList xs : ℝ) * (1 - (meanList xs : ℝ)) / stdList xs ^ 2) - 1)

/-- Beta moment-matched parameter `b` of line 120:
`b = (1-m) * ((m*(1-m)/std**2) - 1)`. -/
noncomputable def bCoef (xs : List ℚ) : ℝ :=
  (1 - (meanList xs : ℝ)) * (((meanList xs : ℝ) * (1 - (meanList xs : ℝ)) / stdList xs ^ 2) - 1)

/-- Importance weight of lines 128–130 for one trimmed point, with the
scipy `beta.pdf` at real-valued parameters treated as an abstract external
function `f x a b`:
`f(x1; a1, b1) * f(x2; a2, b2) / (likelihood(pt) * prior(pt))`. -/
noncomputable def wtd_evid (f : ℝ → ℝ → ℝ → ℝ) (pts : List (ℚ × ℚ)) (pt : ℚ × ℚ) : ℝ :=
  f (pt.1 : ℝ) (aCoef (pts.map Prod.fst)) (bCoef (pts.map Prod.fst)) *
    f (pt.2 : ℝ) (aCoef (pts.map Prod.snd)) (bCoef (pts.map Prod.snd)) /
    (((likelihood pt : ℚ) : ℝ) * ((prior pt : ℚ) : ℝ))

/-- `np.mean` over a list of reals (used on the weights, line 132). -/
noncomputable def meanListR (xs : List ℝ) : ℝ := xs.sum / xs.length

/-- Evidence estimate of line 132: `p_data = 1 / np.mean(wtd_evid)`. -/
noncomputable def p_data (f : ℝ → ℝ → ℝ → ℝ) (pts : List (ℚ × ℚ)) : ℝ :=
  1 / meanListR (pts.map (wtd_evid f pts))

/-- Weight as the spec words it: the reference Beta pdf product divided by
`target_density(point)`, i.e. by `target_rel_prob` itself rather than by
`likelihood * prior`. -/
noncomputable def spec_weight (f : ℝ → ℝ → ℝ → ℝ) (pts : List (ℚ × ℚ)) (pt : ℚ × ℚ) : ℝ :=
  f (pt.1 : ℝ) (aCoef (pts.map Prod.fst)) (bCoef (pts.map Prod.fst)) *
    f (pt.2 : ℝ) (aCoef (pts.map Prod.snd)) (bCoef (pts.map Prod.snd)) /
    ((target_rel_prob pt : ℚ) : ℝ)

/-- Evidence estimate as the spec words it, built from `spec_weight`. -/
noncomputable def spec_p_data (f : ℝ → ℝ → ℝ → ℝ) (pts : List (ℚ × ℚ)) : ℝ :=
  1 / meanListR (pts.map (spec_weight f pts))

/-- Every trimmed trajectory point lies in the domain (uniform draws are
non-negative). -/
theorem accepted_traj_inDomain (jumps : ℕ → ℚ × ℚ) (us : ℕ → ℚ)
    (h : ∀ n, 0 ≤ us n) (len b : ℕ) :
    ∀ pt ∈ accepted_traj jumps us len b, inDomain pt := by
  intro pt hpt
  have hmem : pt ∈ trajList jumps us len := List.drop_subset _ _ hpt
  obtain ⟨k, _, hk⟩ := List.mem_map.1 hmem
  rw [← hk]
  exact inDomain_of_target_pos (trajectory_target_pos jumps us h k)

/-- C6: on the trimmed trajectory the per-point weight computed by the
code — Beta-pdf product over the moment-matched `a`, `b` parameters
divided by `likelihood * prior` — coincides with the spec's formulation
dividing by `target_density(point)` (the two agree because every trimmed
point lies in [0,1]^2, where `target_rel_prob = likelihood * prior`), and
the returned evidence estimate is 1 divided by the arithmetic mean of
these weights. -/
theorem evidence_formula (f : ℝ → ℝ → ℝ → ℝ) (jumps : ℕ → ℚ × ℚ) (us : ℕ → ℚ)
    (h : ∀ n, 0 ≤ us n) (len b : ℕ) :
    (∀ pt ∈ accepted_traj jumps us len b,
      wtd_evid f (accepted_traj jumps us len b) pt =
        spec_weight f (accepted_traj jumps us len b) pt) ∧
    p_data f (accepted_traj jumps us len b) = spec_p_data f (accepted_traj jumps us len b) := by
  have key : ∀ pt ∈ accepted_traj jumps us len b,
      wtd_evid f (accepted_traj jumps us len b) pt =
        spec_weight f (accepted_traj jumps us len b) pt := by
    intro pt hpt
    have hd : inDomain pt := accepted_traj_inDomain jumps us h len b pt hpt
    rw [wtd_evid, spec_weight, target_rel_prob, if_pos hd]
    push_cast
    ring
  refine ⟨key, ?_⟩
  rw [p_data, spec_p_data, List.map_congr_left key]

/-- Witness for C6 on a length-1 run with the constant reference pdf 1. -/
theorem evidence_formula_witness :
    p_data (fun _ _ _ => (1:ℝ)) (accepted_traj (fun _ => (0, 0)) (fun _ => 0) 1 0) =
      spec_p_data (fun _ _ _ => (1:ℝ)) (accepted_traj (fun _ => (0, 0)) (fun _ => 0) 1 0) :=
  (evidence_formula (fun _ _ _ => (1:ℝ)) (fun _ => (0, 0)) (fun _ => 0)
    (fun _ => le_refl 0) 1 0).2

end BernTwoMetropolis
